import Mathlib

/-!
The configuration-to-invocation layer of virtbench.

A shallow embedding of `cmd/virtbench/common.go`, `cmd/virtbench/migration.go`
and `cmd/virtbench/datasource_clone.go`.

Conventions of the embedding:

* Go `string` is `String` (valid UTF-8 text; the suffix and prefix tests of
  the `strings` package compare the same text whether read as bytes or as
  characters); Go `int` is `Int` (no arithmetic is performed on the integers,
  they are only compared with `0` and printed).
* A Go `map[string]interface{}` is an association list `FlagMap` with distinct
  keys.  A `for ... range` loop over a map visits the entries in an order the
  runtime chooses; the loop body is modelled as a fold over the list of entries
  in the order of the visit, and the choice of the order is a component of the
  `World` (`rangeOrder`), constrained only to be a permutation of the entries.
* Calls into the operating system (`os.Executable`, `filepath.EvalSymlinks`,
  `os.Getwd`, `os.Stat`, `cmd.Run`, `time.Now`, `os.Environ`) read a `World`
  value; writes to standard output and process launches are recorded as a list
  of `Event`s returned next to the result.
* Package-level variables declared outside these three files (`kubeconfig`,
  `logFile`, `logLevel`) are the fields of `Globals`.
-/

namespace Virtbench

/-! ## Dynamic values and the flag map -/

/-- The dynamic type of a value stored in a `map[string]interface{}` slot, as
far as the type switch of `buildPythonArgs` distinguishes it: the untyped
`nil`, a `string`, an `int`, a `bool`, a `[]string`, or a value of any other
dynamic type (for which the switch has no case). -/
inductive Value where
  | nil
  | str (s : String)
  | int (n : Int)
  | bool (b : Bool)
  | strs (xs : List String)
  | other (typeName : String)
  deriving DecidableEq, Repr

/-- A `map[string]interface{}`: its entries, with distinct keys. -/
abbrev FlagMap := List (String × Value)

/-- Go `m[k] = v`: overwrite the entry of `k` if there is one, add it otherwise. -/
def mapSet (m : FlagMap) (k : String) (v : Value) : FlagMap :=
  if m.any (fun e => e.1 == k) then
    m.map (fun e => if e.1 == k then (k, v) else e)
  else
    m ++ [(k, v)]

/-- Go `fmt.Sprintf("%d", v)` for an `int`: the decimal digits, preceded by
`-` for a negative number. -/
def sprintfD (v : Int) : String :=
  if v < 0 then "-" ++ Nat.repr v.natAbs else Nat.repr v.natAbs

/-- Go `fmt.Sprintf("--%s", flag)`. -/
def flagToken (flag : String) : String := "--" ++ flag

/-! ## `buildPythonArgs` (common.go, lines 80-111) -/

/-- The inner loop `for _, item := range v { args = append(args, "--flag", item) }`. -/
def appendItems (flag : String) (args : List String) (v : List String) : List String :=
  v.foldl (fun acc item => acc ++ [flagToken flag, item]) args

/-- One iteration of the `for flag, value := range flagMap` loop: the `nil`
check followed by the type switch. -/
def buildStep (args : List String) (entry : String × Value) : List String :=
  match entry.2 with
  | .nil => args
  | .str v => if v ≠ "" then args ++ [flagToken entry.1, v] else args
  | .int v => if v > 0 then args ++ [flagToken entry.1, sprintfD v] else args
  | .bool v => if v then args ++ [flagToken entry.1] else args
  | .strs v => if v.length > 0 then appendItems entry.1 args v else args
  | .other _ => args

/-- The function `buildPythonArgs`; `visited` is the sequence of entries of
`flagMap` in the order the `range` loop visits them, `args` starts as the nil
slice. -/
def buildPythonArgs (visited : List (String × Value)) : List String :=
  visited.foldl buildStep []

/-! ## The emission table of the specification -/

/-- The token group the emission table assigns to one entry (text: flag and
value when non-empty; integer: flag and decimal when positive; boolean: the
flag alone when true; list: the flag before each item; nothing otherwise). -/
def tableGroup (flag : String) : Value → List String
  | .str s => if s = "" then [] else [flagToken flag, s]
  | .int n => if 0 < n then [flagToken flag, sprintfD n] else []
  | .bool b => if b then [flagToken flag] else []
  | .strs xs => xs.flatMap (fun x => [flagToken flag, x])
  | .nil => []
  | .other _ => []

/-! ## Library functions: `strings`, `path/filepath` (Unix), `time` -/

/-- Go `strings.HasSuffix(s, suffix)`:
`len(s) >= len(suffix) && s[len(s)-len(suffix):] == suffix`. -/
def HasSuffix (s suffix : String) : Bool :=
  decide (s.length ≥ suffix.length) &&
    decide (s.data.drop (s.length - suffix.length) = suffix.data)

/-- Go `strings.HasPrefix(s, pre)`. -/
def HasPrefix (s pre : String) : Bool :=
  decide (s.length ≥ pre.length) && decide (s.data.take pre.length = pre.data)

/-- The elements of a path: the maximal runs between separators (`/`),
empty runs included. -/
def splitSep : List Char → List (List Char)
  | [] => [[]]
  | c :: cs =>
    if c = '/' then [] :: splitSep cs
    else
      match splitSep cs with
      | [] => [[c]]
      | h :: t => (c :: h) :: t

/-- One step of the scan of `filepath.Clean` over the path elements; `out`
holds the elements written so far, the last one first.  An empty element and a
`.` element are skipped; a `..` element removes the last element written when
there is one that is not itself `..`, is dropped at the root of a rooted path
and is written otherwise; any other element is written. -/
def cleanStep (rooted : Bool) (out : List (List Char)) (elem : List Char) :
    List (List Char) :=
  if elem = [] then out
  else if elem = ['.'] then out
  else if elem = ['.', '.'] then
    match out with
    | [] => if rooted then [] else [elem]
    | top :: rest => if top = ['.', '.'] then elem :: out else rest
  else elem :: out

/-- The elements of `elems`, each preceded by a separator: `/e1/e2/.../en`. -/
def slashed (elems : List (List Char)) : List Char :=
  elems.flatMap (fun e => '/' :: e)

/-- Go `filepath.Clean(path)` on Unix: the shortest path equivalent to `path`
by purely lexical processing; the empty path becomes `.`. -/
def Clean (path : String) : String :=
  if path = "" then "."
  else
    let rooted := path.data.head? = some '/'
    let out := ((splitSep path.data).foldl (cleanStep rooted) []).reverse
    if rooted then
      (if out = [] then "/" else ⟨slashed out⟩)
    else
      (if out = [] then "." else ⟨(slashed out).drop 1⟩)

/-- Go `strings.Join(elems, sep)`. -/
def stringsJoin : List String → String → String
  | [], _ => ""
  | [a], _ => a
  | a :: b :: rest, sep => a ++ sep ++ stringsJoin (b :: rest) sep

/-- Go `filepath.Join(elem...)` on Unix: leading empty elements are ignored,
the rest is joined with `/` and cleaned; the result is empty when every
element is empty. -/
def Join : List String → String
  | [] => ""
  | e :: rest => if e = "" then Join rest else Clean (stringsJoin (e :: rest) "/")

/-- Go `filepath.IsAbs(path)` on Unix. -/
def IsAbs (path : String) : Bool := HasPrefix path "/"

/-- Go `filepath.Dir(path)` on Unix: everything up to and including the last
separator, cleaned. -/
def Dir (path : String) : String :=
  Clean ⟨(path.data.reverse.dropWhile (fun c => c ≠ '/')).reverse⟩

/-- The decimal digit `'0' + byte(u)` of the time package, in byte
arithmetic. -/
def utod (u : Nat) : Char := Char.ofNat ((48 + u % 256) % 256)

/-- Go `time.appendInt(b, x, width)`: the decimal form of `x` appended to `b`,
padded with leading zeros to `width` digits (sign excluded). -/
def appendInt (b : List Char) (x : Int) (width : Nat) : List Char :=
  let u := x.natAbs
  let b := if x < 0 then b ++ ['-'] else b
  if width = 2 ∧ u < 100 then
    b ++ [utod (u / 10), utod (u % 10)]
  else if width = 4 ∧ u < 10000 then
    b ++ [utod (u / 1000), utod (u / 100 % 10), utod (u / 10 % 10), utod (u % 10)]
  else
    let digits := Nat.toDigits 10 u
    b ++ List.replicate (width - digits.length) '0' ++ digits

/-- The local date and clock of a `time.Time`, as `Time.Format` reads them. -/
structure Instant where
  year : Int
  month : Nat
  day : Nat
  hour : Nat
  minute : Nat
  second : Nat
  deriving DecidableEq, Repr

/-- Go `t.Format("20060102-150405")`: the layout is the long year, the
zero-padded month and day, a literal hyphen, the hour and the zero-padded
minute and second. -/
def formatStamp (t : Instant) : String :=
  let b := appendInt [] t.year 4
  let b := appendInt b t.month 2
  let b := appendInt b t.day 2
  let b := b ++ ['-']
  let b := appendInt b t.hour 2
  let b := appendInt b t.minute 2
  let b := appendInt b t.second 2
  ⟨b⟩

/-! ## Errors, commands, the world -/

/-- A Go `error` value: a leaf error with its message, the `*exec.ExitError`
of a process that exited with a status, or `fmt.Errorf(pre + "%w", cause)`. -/
inductive GoError where
  | leaf (text : String)
  | exit (code : Nat)
  | wrap (pre : String) (cause : GoError)
  deriving DecidableEq, Repr

/-- The method `Error()`. -/
def GoError.Error : GoError → String
  | .leaf text => text
  | .exit code => "exit status " ++ Nat.repr code
  | .wrap pre cause => pre ++ cause.Error

/-- Go `errors.Unwrap(err)`. -/
def GoError.Unwrap : GoError → Option GoError
  | .wrap _ cause => some cause
  | _ => none

/-- The exit code found by `errors.As(err, &exitErr)` followed by
`exitErr.ExitCode()`. -/
def GoError.exitCode : GoError → Option Nat
  | .leaf _ => none
  | .exit code => some code
  | .wrap _ cause => cause.exitCode

/-- A standard stream of a child process. -/
inductive Stream where
  | devNull
  | parentStdin
  | parentStdout
  | parentStderr
  deriving DecidableEq, Repr

/-- The fields of an `exec.Cmd` that `runPythonScript` sets. -/
structure Cmd where
  name : String
  args : List String
  dir : String
  stdout : Stream
  stderr : Stream
  stdin : Stream
  env : List String
  deriving DecidableEq, Repr

/-- What happens when a command is run: it cannot be started, or it starts and
exits with a status. -/
inductive RunOutcome where
  | startFailed (cause : GoError)
  | exited (code : Nat)
  deriving DecidableEq, Repr

/-- Go `cmd.Run()`: nil when the command ran and exited with status zero, an
`*exec.ExitError` when it exited with another status, the cause when it could
not be started. -/
def cmdRun : RunOutcome → Option GoError
  | .startFailed cause => some cause
  | .exited 0 => none
  | .exited (code + 1) => some (.exit (code + 1))

/-- The result of `os.Stat` as far as `os.IsNotExist` tells it apart. -/
inductive StatResult where
  | found
  | notExist
  | failed (err : GoError)
  deriving DecidableEq, Repr

/-- The environment the program runs in. -/
structure World where
  executable : Except GoError String
  evalSymlinks : String → Except GoError String
  getwd : Except GoError String
  stat : String → StatResult
  environ : List String
  now : Instant
  run : Cmd → RunOutcome
  rangeOrder : FlagMap → FlagMap
  rangeOrder_perm : ∀ m, (rangeOrder m).Perm m

/-- Package-level variables declared outside the three files. -/
structure Globals where
  kubeconfig : String
  logFile : String
  logLevel : Value

/-- An observable action: text written to standard output, or a command run. -/
inductive Event where
  | print (text : String)
  | run (cmd : Cmd)
  deriving DecidableEq, Repr

/-- The returned `error` (none for nil) and the actions performed. -/
structure Outcome where
  err : Option GoError
  events : List Event
  deriving DecidableEq, Repr

/-- Go `filepath.Abs(path)` on Unix. -/
def Abs (w : World) (path : String) : Except GoError String :=
  if IsAbs path then .ok (Clean path)
  else
    match w.getwd with
    | .error err => .error err
    | .ok wd => .ok (Join [wd, path])

/-! ## common.go -/

/-- The function `getRepoRoot` (common.go, lines 13-38). -/
def getRepoRoot (w : World) : Except GoError String :=
  match w.executable with
  | .error err => .error (.wrap "failed to get executable path: " err)
  | .ok execPath =>
    match w.evalSymlinks execPath with
    | .error err => .error (.wrap "failed to resolve symlinks: " err)
    | .ok execPath =>
      let binDir := Dir execPath
      if HasSuffix binDir "cmd/virtbench" then
        Abs w (Join [binDir, "../.."])
      else if HasSuffix binDir "bin" then
        Abs w (Join [binDir, ".."])
      else
        Abs w binDir

/-- Go `strings.Repeat("=", 80)`. -/
def rule80 : String := ⟨List.replicate 80 '='⟩

/-- The command prepared by `runPythonScript` (common.go, lines 54-66):
`python3` with the script path followed by the arguments, run in the directory
of the script, on the standard streams of the parent, in the environment of the
parent extended with `KUBECONFIG` when the global is not empty. -/
def prepareCommand (w : World) (g : Globals) (fullScriptPath : String) (args : List String) :
    Cmd :=
  let cmdArgs := fullScriptPath :: args
  let env := w.environ
  let env := if g.kubeconfig ≠ "" then env ++ ["KUBECONFIG=" ++ g.kubeconfig] else env
  { name := "python3", args := cmdArgs, dir := Dir fullScriptPath,
    stdout := .parentStdout, stderr := .parentStderr, stdin := .parentStdin,
    env := env }

/-- The function `runPythonScript` (common.go, lines 41-77). -/
def runPythonScript (w : World) (g : Globals) (scriptPath : String) (args : List String) :
    Outcome :=
  match getRepoRoot w with
  | .error err => ⟨some (.wrap "failed to get repo root: " err), []⟩
  | .ok repoRoot =>
    let fullScriptPath := Join [repoRoot, scriptPath]
    if w.stat fullScriptPath = .notExist then
      ⟨some (.leaf ("script not found: " ++ fullScriptPath)), []⟩
    else
      let cmd := prepareCommand w g fullScriptPath args
      let banner := [Event.print ("Running: python3 " ++ stringsJoin cmd.args " " ++ "\n"),
                     Event.print (rule80 ++ "\n")]
      match cmdRun (w.run cmd) with
      | some err => ⟨some (.wrap "script execution failed: " err), banner ++ [.run cmd]⟩
      | none => ⟨none, banner ++ [.run cmd]⟩

/-- The commands run among the events, in order. -/
def runsOf (events : List Event) : List Cmd :=
  events.filterMap (fun e => match e with
    | .run cmd => some cmd
    | .print _ => none)

/-- The visited entries without those of the flag `k`. -/
def without (k : String) (visited : List (String × Value)) : List (String × Value) :=
  visited.filter (fun e => decide (e.1 ≠ k))

/-- The function `generateLogFileName` (common.go, lines 114-117), with
`time.Now()` read from the world. -/
def generateLogFileName (w : World) (pre : String) : String :=
  let timestamp := formatStamp w.now
  pre ++ "-" ++ timestamp ++ ".log"

/-- The function `printBanner` (common.go, lines 120-126). -/
def printBanner (title : String) : List Event :=
  [.print "\n", .print (rule80 ++ "\n"), .print ("  " ++ title ++ "\n"),
   .print (rule80 ++ "\n"), .print "\n"]

/-! ## migration.go -/

/-- The flag variables of the `migration` command (migration.go, lines 25-39). -/
structure MigrationFlags where
  migStorageClass : String
  migNamespaces : Int
  migNamespacePrefix : String
  migVMName : String
  migDatasourceName : String
  migDatasourceNamespace : String
  migStorageSize : String
  migVMMemory : String
  migVMCPUCores : Int
  migConcurrency : Int
  migPollInterval : Int
  migCleanup : Bool
  migCleanupOnly : Bool

/-- The map `flagMap` built by `runMigration` (migration.go, lines 73-95): the
map literal followed by the assignment of the `log-file` entry. -/
def migrationFlagMap (w : World) (g : Globals) (v : MigrationFlags) : FlagMap :=
  let flagMap : FlagMap :=
    [("storage-class", .str v.migStorageClass),
     ("namespaces", .int v.migNamespaces),
     ("namespace-prefix", .str v.migNamespacePrefix),
     ("vm-name", .str v.migVMName),
     ("datasource-name", .str v.migDatasourceName),
     ("datasource-namespace", .str v.migDatasourceNamespace),
     ("storage-size", .str v.migStorageSize),
     ("vm-memory", .str v.migVMMemory),
     ("vm-cpu-cores", .int v.migVMCPUCores),
     ("concurrency", .int v.migConcurrency),
     ("poll-interval", .int v.migPollInterval),
     ("cleanup", .bool v.migCleanup),
     ("cleanup-only", .bool v.migCleanupOnly),
     ("log-level", g.logLevel)]
  if g.logFile ≠ "" then
    mapSet flagMap "log-file" (.str g.logFile)
  else
    mapSet flagMap "log-file" (.str (generateLogFileName w "migration"))

/-- The vector `pythonArgs` of `runMigration` (migration.go, line 97): the
marshalling of the map in the order the world visits it. -/
def migrationArgs (w : World) (g : Globals) (v : MigrationFlags) : List String :=
  buildPythonArgs (w.rangeOrder (migrationFlagMap w g v))

/-- The function `runMigration` (migration.go, lines 69-101). -/
def runMigration (w : World) (g : Globals) (v : MigrationFlags) : Outcome :=
  let banner := printBanner "VM Migration Benchmark"
  let pythonArgs := migrationArgs w g v
  let r := runPythonScript w g "migration/measure-vm-migration-time.py" pythonArgs
  ⟨r.err, banner ++ r.events⟩

/-! ## datasource_clone.go -/

/-- The flag variables of the `datasource-clone` command
(datasource_clone.go, lines 25-40). -/
structure DatasourceCloneFlags where
  dsStorageClass : String
  dsVMs : Int
  dsNamespaces : Int
  dsNamespacePrefix : String
  dsVMName : String
  dsDatasourceName : String
  dsDatasourceNamespace : String
  dsStorageSize : String
  dsVMMemory : String
  dsVMCPUCores : Int
  dsConcurrency : Int
  dsPollInterval : Int
  dsCleanup : Bool
  dsCleanupOnly : Bool

/-- The map `flagMap` built by `runDatasourceClone` (datasource_clone.go,
lines 75-98). -/
def datasourceCloneFlagMap (w : World) (g : Globals) (v : DatasourceCloneFlags) : FlagMap :=
  let flagMap : FlagMap :=
    [("storage-class", .str v.dsStorageClass),
     ("vms", .int v.dsVMs),
     ("namespaces", .int v.dsNamespaces),
     ("namespace-prefix", .str v.dsNamespacePrefix),
     ("vm-name", .str v.dsVMName),
     ("datasource-name", .str v.dsDatasourceName),
     ("datasource-namespace", .str v.dsDatasourceNamespace),
     ("storage-size", .str v.dsStorageSize),
     ("vm-memory", .str v.dsVMMemory),
     ("vm-cpu-cores", .int v.dsVMCPUCores),
     ("concurrency", .int v.dsConcurrency),
     ("poll-interval", .int v.dsPollInterval),
     ("cleanup", .bool v.dsCleanup),
     ("cleanup-only", .bool v.dsCleanupOnly),
     ("log-level", g.logLevel)]
  if g.logFile ≠ "" then
    mapSet flagMap "log-file" (.str g.logFile)
  else
    mapSet flagMap "log-file" (.str (generateLogFileName w "datasource-clone"))

/-- The vector `pythonArgs` of `runDatasourceClone` (datasource_clone.go,
line 100). -/
def datasourceCloneArgs (w : World) (g : Globals) (v : DatasourceCloneFlags) : List String :=
  buildPythonArgs (w.rangeOrder (datasourceCloneFlagMap w g v))

/-- The function `runDatasourceClone` (datasource_clone.go, lines 71-104). -/
def runDatasourceClone (w : World) (g : Globals) (v : DatasourceCloneFlags) : Outcome :=
  let banner := printBanner "DataSource Clone Benchmark"
  let pythonArgs := datasourceCloneArgs w g v
  let r := runPythonScript w g "datasource-clone/measure-vm-creation-time.py" pythonArgs
  ⟨r.err, banner ++ r.events⟩

/-! ## Vocabulary of the specification of the log name -/

/-- The `width`-digit zero-padded decimal of `n`: the digit at position `i`
from the right is `n / 10 ^ i % 10`. -/
def zeroPadded (width n : Nat) : List Char :=
  (List.range width).reverse.map (fun i => Char.ofNat (48 + n / 10 ^ i % 10))

/-- The pattern `[0-9]{8}-[0-9]{6}`: eight digits, a hyphen, six digits. -/
def matchesStampPattern (cs : List Char) : Bool :=
  cs.length == 15 && (cs.take 8).all Char.isDigit && cs.get? 8 == some '-' &&
    (cs.drop 9).all Char.isDigit

/-! ## Vocabulary of the specification of the root resolution -/

/-- A proper path element: not empty, without a separator, neither `.` nor `..`. -/
def ProperElem (e : String) : Prop :=
  e.data ≠ [] ∧ '/' ∉ e.data ∧ e.data ≠ ['.'] ∧ e.data ≠ ['.', '.']

instance (e : String) : Decidable (ProperElem e) := by
  unfold ProperElem
  infer_instance

/-- The characters of a proper path element. -/
def ProperChars (c : List Char) : Prop :=
  c ≠ [] ∧ '/' ∉ c ∧ c ≠ ['.'] ∧ c ≠ ['.', '.']

/-- The characters of the absolute path with the elements `cs`. -/
def absData (cs : List (List Char)) : List Char :=
  if cs = [] then ['/'] else slashed cs

/-- The absolute path with the path components `elems`: `/e1/e2/.../en`, and
`/` when there is none. -/
def absPath (elems : List String) : String := "/" ++ stringsJoin elems "/"

/-- A world in which the binary is `/repo/cmd/virtbench/virtbench`, every
script exists, the child exits with status zero and maps are visited in the
order of their construction. -/
def sampleWorld : World where
  executable := .ok "/repo/cmd/virtbench/virtbench"
  evalSymlinks := fun p => .ok p
  getwd := .ok "/home/operator"
  stat := fun _ => .found
  environ := ["PATH=/usr/bin"]
  now := ⟨2006, 1, 2, 15, 4, 5⟩
  run := fun _ => .exited 0
  rangeOrder := fun m => m
  rangeOrder_perm := fun m => List.Perm.refl m

/-- The sample world with another outcome of running a command. -/
def worldRunning (outcome : RunOutcome) : World :=
  { sampleWorld with run := fun _ => outcome }

/-- The sample world in which no script exists. -/
def worldWithoutScripts : World :=
  { sampleWorld with stat := fun _ => .notExist }

/-- The error of `os.Stat` when a component of the path prefix is not a
directory (ENOTDIR); `os.IsNotExist` is false for it. -/
def statNotDir (path : String) : GoError :=
  .leaf ("stat " ++ path ++ ": not a directory")

/-- The error of `os.Stat` when a name of the path is longer than the file
system allows (ENAMETOOLONG); `os.IsNotExist` is false for it. -/
def statNameTooLong (path : String) : GoError :=
  .leaf ("stat " ++ path ++ ": file name too long")

/-- Nothing exists at `path`, as `os.Stat` tells it: the file is reported
missing (ENOENT), or the lookup fails because a component of the prefix is not
a directory (ENOTDIR) or because a name is too long (ENAMETOOLONG); in each of
the three cases no file has this path. -/
def NothingExistsAt (w : World) (path : String) : Prop :=
  w.stat path = .notExist ∨ w.stat path = .failed (statNotDir path) ∨
    w.stat path = .failed (statNameTooLong path)

instance (w : World) (path : String) : Decidable (NothingExistsAt w path) := by
  unfold NothingExistsAt
  infer_instance

/-- The sample world in which `/repo/migration` is a regular file instead of a
directory: `os.Stat` of a path below it fails with ENOTDIR, and a command whose
working directory is below it cannot be started. -/
def worldNotDir : World :=
  { sampleWorld with
    stat := fun path =>
      if HasPrefix path "/repo/migration/" then .failed (statNotDir path) else .found
    run := fun cmd =>
      if HasPrefix cmd.dir "/repo/migration" then
        .startFailed (.leaf "fork/exec /usr/bin/python3: not a directory")
      else .exited 0 }

/-- Globals of a run without overrides. -/
def sampleGlobals : Globals where
  kubeconfig := ""
  logFile := ""
  logLevel := .str "INFO"

/-- The sample world with the binary at `exe` instead. -/
def worldAt (exe : String) : World :=
  { sampleWorld with executable := .ok exe }

/-- The log-file name of a workload: the override when it is not empty, the
generated name for the prefix of the workload otherwise. -/
def logName (w : World) (g : Globals) (pre : String) : String :=
  if g.logFile ≠ "" then g.logFile else generateLogFileName w pre

/-- Flag variables of a `migration` run with the defaults of the command and
the given storage class and poll interval. -/
def sampleMigration (storageClass : String) (pollInterval : Int) : MigrationFlags where
  migStorageClass := storageClass
  migNamespaces := 10
  migNamespacePrefix := "migration-test"
  migVMName := "test-vm"
  migDatasourceName := "rhel9"
  migDatasourceNamespace := "openshift-virtualization-os-images"
  migStorageSize := "30Gi"
  migVMMemory := "2048M"
  migVMCPUCores := 1
  migConcurrency := 10
  migPollInterval := pollInterval
  migCleanup := false
  migCleanupOnly := false

/-- Flag variables of a `datasource-clone` run with the defaults of the
command and the given storage class and number of VMs. -/
def sampleClone (storageClass : String) (vms : Int) : DatasourceCloneFlags where
  dsStorageClass := storageClass
  dsVMs := vms
  dsNamespaces := 10
  dsNamespacePrefix := "datasource-clone"
  dsVMName := "test-vm"
  dsDatasourceName := "rhel9"
  dsDatasourceNamespace := "openshift-virtualization-os-images"
  dsStorageSize := "30Gi"
  dsVMMemory := "2048M"
  dsVMCPUCores := 1
  dsConcurrency := 10
  dsPollInterval := 5
  dsCleanup := false
  dsCleanupOnly := false

/-! ## Lemmas on `buildPythonArgs` -/

theorem appendItems_eq (flag : String) (args v : List String) :
    appendItems flag args v = args ++ v.flatMap (fun x => [flagToken flag, x]) := by
  unfold appendItems
  induction v generalizing args with
  | nil => simp
  | cons x xs ih => simp [List.foldl_cons, ih, List.flatMap_cons, List.append_assoc]

theorem buildStep_eq (args : List String) (entry : String × Value) :
    buildStep args entry = args ++ tableGroup entry.1 entry.2 := by
  obtain ⟨f, v⟩ := entry
  cases v with
  | nil => simp [buildStep, tableGroup]
  | str s => by_cases h : s = "" <;> simp [buildStep, tableGroup, h]
  | int n => by_cases h : 0 < n <;> simp [buildStep, tableGroup, h]
  | bool b => cases b <;> simp [buildStep, tableGroup]
  | strs xs =>
    cases xs with
    | nil => simp [buildStep, tableGroup]
    | cons x xs => simp [buildStep, tableGroup, appendItems_eq]
  | other t => simp [buildStep, tableGroup]

theorem foldl_buildStep (acc : List String) (m : List (String × Value)) :
    m.foldl buildStep acc = acc ++ (m.map (fun e => tableGroup e.1 e.2)).flatten := by
  induction m generalizing acc with
  | nil => simp
  | cons e m ih => simp [List.foldl_cons, ih, buildStep_eq, List.append_assoc]

theorem buildPythonArgs_eq_groups (m : List (String × Value)) :
    buildPythonArgs m = (m.map (fun e => tableGroup e.1 e.2)).flatten := by
  simp [buildPythonArgs, foldl_buildStep]

theorem buildPythonArgs_single (f : String) (v : Value) :
    buildPythonArgs [(f, v)] = tableGroup f v := by
  simp [buildPythonArgs_eq_groups]

theorem buildPythonArgs_append (m₁ m₂ : List (String × Value)) :
    buildPythonArgs (m₁ ++ m₂) = buildPythonArgs m₁ ++ buildPythonArgs m₂ := by
  simp [buildPythonArgs_eq_groups]

theorem buildPythonArgs_cons (e : String × Value) (m : List (String × Value)) :
    buildPythonArgs (e :: m) = tableGroup e.1 e.2 ++ buildPythonArgs m := by
  simp [buildPythonArgs_eq_groups]

/-! ## Lemmas on the time format -/

theorem isDigit_ofNat (d : Nat) (h : d < 10) : (Char.ofNat (48 + d)).isDigit = true := by
  interval_cases d <;> rfl

theorem zeroPadded_two (n : Nat) :
    zeroPadded 2 n = [Char.ofNat (48 + n / 10 % 10), Char.ofNat (48 + n % 10)] := by
  simp [zeroPadded, List.range_succ]

theorem zeroPadded_four (n : Nat) :
    zeroPadded 4 n = [Char.ofNat (48 + n / 1000 % 10), Char.ofNat (48 + n / 100 % 10),
      Char.ofNat (48 + n / 10 % 10), Char.ofNat (48 + n % 10)] := by
  simp [zeroPadded, List.range_succ]

theorem appendInt_two (b : List Char) (n : Nat) (h : n < 100) :
    appendInt b (n : Int) 2 = b ++ zeroPadded 2 n := by
  have h1 : (48 + n / 10 % 256) % 256 = 48 + n / 10 % 10 := by omega
  have h2 : (48 + n % 10 % 256) % 256 = 48 + n % 10 := by omega
  simp [appendInt, h, utod, zeroPadded_two, h1, h2]

theorem appendInt_four (b : List Char) (y : Int) (h0 : 0 ≤ y) (h : y ≤ 9999) :
    appendInt b y 4 = b ++ zeroPadded 4 y.toNat := by
  obtain ⟨n, rfl⟩ := Int.eq_ofNat_of_zero_le h0
  have hn : n < 10000 := by omega
  have h1 : (48 + n / 1000 % 256) % 256 = 48 + n / 1000 % 10 := by omega
  have h2 : (48 + n / 100 % 10 % 256) % 256 = 48 + n / 100 % 10 := by omega
  have h3 : (48 + n / 10 % 10 % 256) % 256 = 48 + n / 10 % 10 := by omega
  have h4 : (48 + n % 10 % 256) % 256 = 48 + n % 10 := by omega
  simp [appendInt, hn, utod, zeroPadded_four, h1, h2, h3, h4]
theorem formatStamp_eq (t : Instant) (hy0 : 0 ≤ t.year) (hy : t.year ≤ 9999)
    (hmo : t.month < 100) (hd : t.day < 100) (hh : t.hour < 100) (hmi : t.minute < 100)
    (hs : t.second < 100) :
    (formatStamp t).data = zeroPadded 4 t.year.toNat ++ zeroPadded 2 t.month ++ zeroPadded 2 t.day
      ++ '-' :: (zeroPadded 2 t.hour ++ zeroPadded 2 t.minute ++ zeroPadded 2 t.second) := by
  simp only [formatStamp]
  rw [appendInt_four _ _ hy0 hy, appendInt_two _ _ hmo, appendInt_two _ _ hd,
    appendInt_two _ _ hh, appendInt_two _ _ hmi, appendInt_two _ _ hs]
  simp


/-! ## Lemmas on the path functions -/

theorem splitSep_ne_nil (cs : List Char) : splitSep cs ≠ [] := by
  cases cs with
  | nil => simp [splitSep]
  | cons c cs =>
    by_cases h : c = '/'
    · simp [splitSep, h]
    · cases hs : splitSep cs <;> simp [splitSep, h, hs]

theorem splitSep_noSep (e : List Char) (he : '/' ∉ e) : splitSep e = [e] := by
  induction e with
  | nil => rfl
  | cons c cs ih =>
    have hc : c ≠ '/' := fun h => he (by simp [h])
    have hcs : '/' ∉ cs := fun h => he (List.mem_cons_of_mem _ h)
    simp [splitSep, hc, ih hcs]

theorem splitSep_append_sep (e rest : List Char) (he : '/' ∉ e) :
    splitSep (e ++ '/' :: rest) = e :: splitSep rest := by
  induction e with
  | nil => simp [splitSep]
  | cons c cs ih =>
    have hc : c ≠ '/' := fun h => he (by simp [h])
    have hcs : '/' ∉ cs := fun h => he (List.mem_cons_of_mem _ h)
    simp [splitSep, hc, ih hcs]

theorem splitSep_slashed (e : List Char) (es : List (List Char)) (he : '/' ∉ e)
    (hes : ∀ x ∈ es, '/' ∉ x) : splitSep (e ++ slashed es) = e :: es := by
  induction es generalizing e with
  | nil => simpa [slashed] using splitSep_noSep e he
  | cons x xs ih =>
    have hx : '/' ∉ x := hes x (by simp)
    have hxs : ∀ y ∈ xs, '/' ∉ y := fun y hy => hes y (List.mem_cons_of_mem _ hy)
    have : e ++ slashed (x :: xs) = e ++ '/' :: (x ++ slashed xs) := by
      simp [slashed, List.flatMap_cons]
    rw [this, splitSep_append_sep e _ he, ih x hx hxs]

theorem splitSep_slashed_sep (e : List Char) (es : List (List Char)) (rest : List Char)
    (he : '/' ∉ e) (hes : ∀ x ∈ es, '/' ∉ x) :
    splitSep (e ++ slashed es ++ '/' :: rest) = e :: (es ++ splitSep rest) := by
  induction es generalizing e with
  | nil => simpa [slashed] using splitSep_append_sep e rest he
  | cons x xs ih =>
    have hx : '/' ∉ x := hes x (by simp)
    have hxs : ∀ y ∈ xs, '/' ∉ y := fun y hy => hes y (List.mem_cons_of_mem _ hy)
    have : e ++ slashed (x :: xs) ++ '/' :: rest = e ++ '/' :: (x ++ slashed xs ++ '/' :: rest) := by
      simp [slashed, List.flatMap_cons]
    rw [this, splitSep_append_sep e _ he, ih x hx hxs]
    simp

theorem cleanStep_proper (rooted : Bool) (out : List (List Char)) (c : List Char)
    (hc : ProperChars c) : cleanStep rooted out c = c :: out := by
  obtain ⟨h1, _, h3, h4⟩ := hc
  simp [cleanStep, h1, h3, h4]

theorem foldl_cleanStep_proper (rooted : Bool) (out cs : List (List Char))
    (hcs : ∀ c ∈ cs, ProperChars c) :
    cs.foldl (cleanStep rooted) out = cs.reverse ++ out := by
  induction cs generalizing out with
  | nil => simp
  | cons c cs ih =>
    have hc : ProperChars c := hcs c (by simp)
    have hrest : ∀ x ∈ cs, ProperChars x := fun x hx => hcs x (List.mem_cons_of_mem _ hx)
    simp [List.foldl_cons, cleanStep_proper rooted out c hc, ih _ hrest]

theorem cleanStep_up (out : List (List Char)) (hout : ∀ c ∈ out, ProperChars c) :
    cleanStep true out ['.', '.'] = out.tail := by
  cases out with
  | nil => simp [cleanStep]
  | cons top rest =>
    have htop : top ≠ ['.', '.'] := (hout top (by simp)).2.2.2
    simp [cleanStep, htop]

theorem slashed_cons (c : List Char) (cs : List (List Char)) :
    slashed (c :: cs) = '/' :: (c ++ slashed cs) := by
  simp [slashed, List.flatMap_cons]

theorem stringsJoin_data (es : List String) :
    (stringsJoin es "/").data = (slashed (es.map String.data)).tail := by
  induction es with
  | nil => rfl
  | cons a rest ih =>
    cases rest with
    | nil => simp [stringsJoin, slashed]
    | cons b rest =>
      have hsl : "/".data = ['/'] := rfl
      rw [stringsJoin, String.data_append, String.data_append, ih, hsl]
      simp [slashed_cons]

theorem absPath_data (es : List String) :
    (absPath es).data = absData (es.map String.data) := by
  unfold absPath absData
  rw [String.data_append, stringsJoin_data]
  cases es with
  | nil => simp [slashed]
  | cons a rest => simp [slashed_cons]

theorem absData_ne_nil (cs : List (List Char)) : absData cs ≠ [] := by
  unfold absData
  cases cs with
  | nil => simp
  | cons c cs => simp [slashed_cons]

theorem absData_head (cs : List (List Char)) (t : List Char) :
    (absData cs ++ t).head? = some '/' := by
  unfold absData
  cases cs with
  | nil => simp
  | cons c cs => simp [slashed_cons]

theorem foldl_cleanStep_absData (cs : List (List Char)) (hcs : ∀ c ∈ cs, ProperChars c) :
    (splitSep (absData cs)).foldl (cleanStep true) [] = cs.reverse := by
  have hsep : ∀ x ∈ cs, '/' ∉ x := fun x hx => (hcs x hx).2.1
  cases cs with
  | nil => simp [absData, splitSep, cleanStep]
  | cons c cs =>
    have h := splitSep_slashed [] (c :: cs) (by simp) hsep
    simp only [List.nil_append] at h
    have hne : (c :: cs) ≠ [] := by simp
    rw [absData, if_neg hne, h, List.foldl_cons]
    have h0 : cleanStep true [] [] = [] := by simp [cleanStep]
    rw [h0, foldl_cleanStep_proper true [] (c :: cs) hcs]
    simp

theorem foldl_cleanStep_absData_sep (cs : List (List Char)) (rest : List Char)
    (hcs : ∀ c ∈ cs, ProperChars c) :
    (splitSep (absData cs ++ '/' :: rest)).foldl (cleanStep true) []
      = (splitSep rest).foldl (cleanStep true) cs.reverse := by
  have hsep : ∀ x ∈ cs, '/' ∉ x := fun x hx => (hcs x hx).2.1
  have h0 : ∀ out, cleanStep true out [] = out := by intro out; simp [cleanStep]
  cases cs with
  | nil => simp [absData, splitSep, h0]
  | cons c cs =>
    have h := splitSep_slashed_sep [] (c :: cs) rest (by simp) hsep
    simp only [List.nil_append] at h
    have hne : (c :: cs) ≠ [] := by simp
    rw [absData, if_neg hne, h, List.foldl_cons, h0, List.foldl_append,
      foldl_cleanStep_proper true [] (c :: cs) hcs]
    simp

theorem Clean_rooted (path : String) (h : path.data.head? = some '/') :
    (Clean path).data
      = absData ((splitSep path.data).foldl (cleanStep true) []).reverse := by
  have hne : path ≠ "" := by
    intro he
    rw [he] at h
    simp at h
  unfold Clean absData
  simp only [if_neg hne, h, decide_True, if_true]
  split <;> rfl

theorem properChars_of_elems (es : List String) (hes : ∀ e ∈ es, ProperElem e) :
    ∀ c ∈ es.map String.data, ProperChars c := by
  intro c hc
  obtain ⟨e, he, rfl⟩ := List.mem_map.1 hc
  exact hes e he

theorem absPath_head (es : List String) (t : String) :
    (absPath es ++ t).data.head? = some '/' := by
  rw [String.data_append, absPath_data]
  exact absData_head _ _

theorem Clean_absPath (es : List String) (hes : ∀ e ∈ es, ProperElem e) :
    Clean (absPath es) = absPath es := by
  apply String.ext
  have hh : (absPath es).data.head? = some '/' := by
    have := absPath_head es ""
    simpa using this
  rw [Clean_rooted _ hh, absPath_data,
    foldl_cleanStep_absData _ (properChars_of_elems es hes), List.reverse_reverse]

theorem Clean_absPath_up (es : List String) (hes : ∀ e ∈ es, ProperElem e) :
    Clean (absPath es ++ "/" ++ "..") = absPath es.dropLast := by
  apply String.ext
  have hp := properChars_of_elems es hes
  have hh : (absPath es ++ "/" ++ "..").data.head? = some '/' := by
    rw [String.append_assoc]
    exact absPath_head es _
  have hd : (absPath es ++ "/" ++ "..").data
      = absData (es.map String.data) ++ '/' :: ['.', '.'] := by
    rw [String.data_append, String.data_append, absPath_data]
    simp
  have hs : splitSep ['.', '.'] = [['.', '.']] := by decide
  have hrev : ∀ c ∈ (es.map String.data).reverse, ProperChars c :=
    fun c hc => hp c (List.mem_reverse.1 hc)
  rw [Clean_rooted _ hh, hd, foldl_cleanStep_absData_sep _ _ hp, hs, List.foldl_cons,
    List.foldl_nil, cleanStep_up _ hrev, List.tail_reverse, List.reverse_reverse, absPath_data,
    List.map_dropLast]

theorem Clean_absPath_up_up (es : List String) (hes : ∀ e ∈ es, ProperElem e) :
    Clean (absPath es ++ "/" ++ "../..") = absPath es.dropLast.dropLast := by
  apply String.ext
  have hp := properChars_of_elems es hes
  have hh : (absPath es ++ "/" ++ "../..").data.head? = some '/' := by
    rw [String.append_assoc]
    exact absPath_head es _
  have hd : (absPath es ++ "/" ++ "../..").data
      = absData (es.map String.data) ++ '/' :: ['.', '.', '/', '.', '.'] := by
    rw [String.data_append, String.data_append, absPath_data]
    simp
  have hs : splitSep ['.', '.', '/', '.', '.'] = [['.', '.'], ['.', '.']] := by decide
  have hrev : ∀ c ∈ (es.map String.data).reverse, ProperChars c :=
    fun c hc => hp c (List.mem_reverse.1 hc)
  have hrev2 : ∀ c ∈ (es.map String.data).dropLast.reverse, ProperChars c :=
    fun c hc => hp c (List.dropLast_subset _ (List.mem_reverse.1 hc))
  rw [Clean_rooted _ hh, hd, foldl_cleanStep_absData_sep _ _ hp, hs, List.foldl_cons,
    List.foldl_cons, List.foldl_nil, cleanStep_up _ hrev, List.tail_reverse,
    cleanStep_up _ hrev2, List.tail_reverse, List.reverse_reverse, absPath_data,
    List.map_dropLast, List.map_dropLast]

theorem absPath_ne_empty (es : List String) : absPath es ≠ "" := by
  intro h
  have := congrArg String.data h
  rw [absPath_data] at this
  exact absData_ne_nil _ this

theorem IsAbs_absPath (es : List String) : IsAbs (absPath es) = true := by
  have hh : (absPath es).data.head? = some '/' := by
    have := absPath_head es ""
    simpa using this
  unfold IsAbs HasPrefix
  cases hdat : (absPath es).data with
  | nil => rw [hdat] at hh; simp at hh
  | cons c cs =>
    rw [hdat] at hh
    simp at hh
    have hl : (absPath es).length = cs.length + 1 := by simp [String.length, hdat]
    have h1 : "/".length = 1 := rfl
    have h2 : "/".data = ['/'] := rfl
    simp [hl, h1, h2, hh]

theorem Abs_absPath (w : World) (es : List String) (hes : ∀ e ∈ es, ProperElem e) :
    Abs w (absPath es) = .ok (absPath es) := by
  simp [Abs, IsAbs_absPath, Clean_absPath es hes]

theorem dropLast_proper (es : List String) (hes : ∀ e ∈ es, ProperElem e) :
    ∀ e ∈ es.dropLast, ProperElem e :=
  fun e he => hes e (List.dropLast_subset _ he)

/-- The value of `getRepoRoot` as a function of the directory of the binary. -/
theorem getRepoRoot_of_binDir (w : World) (p₀ p : String) (es : List String)
    (hexe : w.executable = .ok p₀) (hsym : w.evalSymlinks p₀ = .ok p)
    (hdir : Dir p = absPath es) (hes : ∀ e ∈ es, ProperElem e) :
    getRepoRoot w = .ok
      (if HasSuffix (absPath es) "cmd/virtbench" then absPath es.dropLast.dropLast
       else if HasSuffix (absPath es) "bin" then absPath es.dropLast
       else absPath es) := by
  have hne := absPath_ne_empty es
  have hj2 : Join [absPath es, "../.."] = absPath es.dropLast.dropLast := by
    simp only [Join, if_neg hne, stringsJoin]
    exact Clean_absPath_up_up es hes
  have hj1 : Join [absPath es, ".."] = absPath es.dropLast := by
    simp only [Join, if_neg hne, stringsJoin]
    exact Clean_absPath_up es hes
  simp only [getRepoRoot, hexe, hsym, hdir]
  split
  · rw [hj2]
    exact Abs_absPath w _ (dropLast_proper _ (dropLast_proper es hes))
  · split
    · rw [hj1]
      exact Abs_absPath w _ (dropLast_proper es hes)
    · exact Abs_absPath w es hes

theorem hasSuffix_iff (s suffix : String) :
    HasSuffix s suffix = true ↔ suffix.data <:+ s.data := by
  unfold HasSuffix
  simp only [Bool.and_eq_true, decide_eq_true_eq, String.length]
  constructor
  · rintro ⟨_, h⟩
    exact List.suffix_iff_eq_drop.2 h.symm
  · intro h
    exact ⟨h.length_le, (List.suffix_iff_eq_drop.1 h).symm⟩

theorem absData_concat (cs : List (List Char)) (c : List Char) :
    absData (cs ++ [c]) = slashed cs ++ '/' :: c := by
  have hne : cs ++ [c] ≠ [] := by simp
  rw [absData, if_neg hne]
  simp [slashed]

theorem absPath_concat_data (init : List String) (last : String) :
    (absPath (init ++ [last])).data = slashed (init.map String.data) ++ '/' :: last.data := by
  rw [absPath_data, List.map_append, List.map_singleton, absData_concat]

theorem absPath_concat_ne (init : List String) (last : String) (h : last.data ≠ []) :
    absPath init ≠ absPath (init ++ [last]) := by
  intro heq
  have hd := congrArg (fun s => s.data.length) heq
  have hl : 0 < last.data.length := List.length_pos.2 h
  have h2 : (absPath (init ++ [last])).data.length
      = (slashed (init.map String.data)).length + (last.data.length + 1) := by
    rw [absPath_concat_data, List.length_append, List.length_cons]
  have h1 : (absPath init).data.length ≤ (slashed (init.map String.data)).length + 1 := by
    rw [absPath_data, absData]
    split
    · simp
    · omega
  simp only at hd
  omega

theorem hasSuffix_bin (init : List String) (x : String) :
    HasSuffix (absPath (init ++ [x ++ "bin"])) "bin" = true := by
  rw [hasSuffix_iff, absPath_concat_data, String.data_append]
  refine ⟨slashed (init.map String.data) ++ '/' :: x.data, ?_⟩
  simp

theorem not_hasSuffix_cmd_of_bin (init : List String) (x : String) :
    HasSuffix (absPath (init ++ [x ++ "bin"])) "cmd/virtbench" = false := by
  rw [Bool.eq_false_iff]
  intro h
  rw [hasSuffix_iff, absPath_concat_data, String.data_append] at h
  obtain ⟨t, ht⟩ := h
  have h1 := congrArg List.getLast? ht
  have hb : "bin".data = ['b', 'i', 'n'] := rfl
  have hc : "cmd/virtbench".data = "cmd/virtbenc".data ++ ['h'] := rfl
  rw [hc, hb] at h1
  have e1 : (t ++ ("cmd/virtbenc".data ++ ['h'])).getLast? = some 'h' := by
    rw [← List.append_assoc, List.getLast?_append]
    simp
  have e2 : (slashed (List.map String.data init) ++ '/' :: (x.data ++ ['b', 'i', 'n'])).getLast?
      = some 'n' := by
    have : slashed (List.map String.data init) ++ '/' :: (x.data ++ ['b', 'i', 'n'])
        = (slashed (List.map String.data init) ++ '/' :: x.data ++ ['b', 'i']) ++ ['n'] := by
      simp
    rw [this, List.getLast?_append]
    simp
  rw [e1, e2] at h1
  exact absurd h1 (by decide)

theorem hasSuffix_cmd_virtbench (init : List String) (x : String) :
    HasSuffix (absPath (init ++ [x ++ "cmd", "virtbench"])) "cmd/virtbench" = true := by
  have hl : init ++ [x ++ "cmd", "virtbench"] = (init ++ [x ++ "cmd"]) ++ ["virtbench"] := by
    simp
  rw [hasSuffix_iff, hl, absPath_concat_data]
  refine ⟨slashed (init.map String.data) ++ '/' :: x.data, ?_⟩
  have hc : "cmd/virtbench".data = "cmd".data ++ '/' :: "virtbench".data := rfl
  rw [hc]
  simp [slashed, String.data_append]

theorem splitSep_noSep_mem (cs : List Char) : ∀ e ∈ splitSep cs, '/' ∉ e := by
  induction cs with
  | nil => simp [splitSep]
  | cons c cs ih =>
    by_cases hc : c = '/'
    · intro e he
      simp only [splitSep, hc, if_true, List.mem_cons] at he
      rcases he with rfl | he
      · simp
      · exact ih e he
    · cases hs : splitSep cs with
      | nil => exact absurd hs (splitSep_ne_nil cs)
      | cons h t =>
        rw [hs] at ih
        intro e he
        simp only [splitSep, hc, if_false, hs, List.mem_cons] at he
        rcases he with rfl | he
        · have hh : '/' ∉ h := ih h (by simp)
          intro hmem
          rcases List.mem_cons.1 hmem with h1 | h1
          · exact hc h1.symm
          · exact hh h1
        · exact ih e (List.mem_cons_of_mem _ he)

theorem cleanStep_rooted_proper (out : List (List Char)) (e : List Char)
    (hout : ∀ c ∈ out, ProperChars c) (he : '/' ∉ e) :
    ∀ c ∈ cleanStep true out e, ProperChars c := by
  unfold cleanStep
  by_cases h1 : e = []
  · simpa [h1] using hout
  by_cases h2 : e = ['.']
  · simpa [h2] using hout
  by_cases h3 : e = ['.', '.']
  · cases out with
    | nil => simp [h3]
    | cons top rest =>
      have htop : top ≠ ['.', '.'] := (hout top (by simp)).2.2.2
      simp only [h3, htop, if_false, if_true]
      intro c hc
      simp at hc
      exact hout c (List.mem_cons_of_mem _ (by simpa using hc))
  · simp only [h1, h2, h3, if_false]
    intro c hc
    rcases List.mem_cons.1 hc with rfl | hc
    · exact ⟨h1, he, h2, h3⟩
    · exact hout c hc

theorem foldl_cleanStep_rooted_proper (elems out : List (List Char))
    (hout : ∀ c ∈ out, ProperChars c) (hel : ∀ e ∈ elems, '/' ∉ e) :
    ∀ c ∈ elems.foldl (cleanStep true) out, ProperChars c := by
  induction elems generalizing out with
  | nil => simpa using hout
  | cons e rest ih =>
    rw [List.foldl_cons]
    exact ih _ (cleanStep_rooted_proper out e hout (hel e (by simp)))
      (fun x hx => hel x (List.mem_cons_of_mem _ hx))

/-- The cleaning of a rooted path is an absolute path of proper elements. -/
theorem Clean_rooted_form (path : String) (h : path.data.head? = some '/') :
    ∃ es : List String, (∀ e ∈ es, ProperElem e) ∧ Clean path = absPath es := by
  have hp := foldl_cleanStep_rooted_proper (splitSep path.data) [] (by simp)
    (splitSep_noSep_mem path.data)
  refine ⟨(((splitSep path.data).foldl (cleanStep true) []).reverse).map String.mk, ?_, ?_⟩
  · intro e he
    obtain ⟨c, hc, rfl⟩ := List.mem_map.1 he
    exact hp c (List.mem_reverse.1 hc)
  · apply String.ext
    rw [Clean_rooted path h, absPath_data, List.map_map]
    have : (String.data ∘ String.mk) = (id : List Char → List Char) := by
      funext l
      rfl
    rw [this, List.map_id]

theorem isAbs_head (p : String) (h : IsAbs p = true) : ∃ rest, p.data = '/' :: rest := by
  unfold IsAbs HasPrefix at h
  have h1 : "/".length = 1 := rfl
  have h2 : "/".data = ['/'] := rfl
  rw [h1, h2, Bool.and_eq_true, decide_eq_true_eq, decide_eq_true_eq] at h
  cases hd : p.data with
  | nil =>
    rw [hd] at h
    exact absurd h.2 (by simp)
  | cons c cs =>
    rw [hd] at h
    have h3 : c = '/' := by simpa using h.2
    exact ⟨cs, by rw [h3]⟩

/-- The directory of an absolute path is an absolute path of proper elements. -/
theorem Dir_abs_form (p : String) (h : IsAbs p = true) :
    ∃ es : List String, (∀ e ∈ es, ProperElem e) ∧ Dir p = absPath es := by
  obtain ⟨rest, hrest⟩ := isAbs_head p h
  unfold Dir
  apply Clean_rooted_form
  rw [hrest, List.reverse_cons, List.dropWhile_append]
  split
  · simp
  · simp

theorem utf8Size_ofNat (d : Nat) (h : d < 10) : (Char.ofNat (48 + d)).utf8Size = 1 := by
  interval_cases d <;> rfl

theorem utf8Len_zeroPadded (width n : Nat) : String.utf8Len (zeroPadded width n) = width := by
  unfold zeroPadded
  have key : ∀ l : List Nat,
      String.utf8Len (l.map (fun i => Char.ofNat (48 + n / 10 ^ i % 10))) = l.length := by
    intro l
    induction l with
    | nil => rfl
    | cons a l ih =>
      rw [List.map_cons, String.utf8Len_cons, ih, utf8Size_ofNat _ (Nat.mod_lt _ (by decide)),
        List.length_cons]
  rw [key]
  simp


/-! ## Lemmas on the workload maps -/

theorem migrationFlagMap_eq (w : World) (g : Globals) (v : MigrationFlags) :
    migrationFlagMap w g v =
      [("storage-class", .str v.migStorageClass),
       ("namespaces", .int v.migNamespaces),
       ("namespace-prefix", .str v.migNamespacePrefix),
       ("vm-name", .str v.migVMName),
       ("datasource-name", .str v.migDatasourceName),
       ("datasource-namespace", .str v.migDatasourceNamespace),
       ("storage-size", .str v.migStorageSize),
       ("vm-memory", .str v.migVMMemory),
       ("vm-cpu-cores", .int v.migVMCPUCores),
       ("concurrency", .int v.migConcurrency),
       ("poll-interval", .int v.migPollInterval),
       ("cleanup", .bool v.migCleanup),
       ("cleanup-only", .bool v.migCleanupOnly),
       ("log-level", g.logLevel),
       ("log-file", .str (logName w g "migration"))] := by
  unfold migrationFlagMap logName
  split <;> simp [mapSet]

theorem datasourceCloneFlagMap_eq (w : World) (g : Globals) (v : DatasourceCloneFlags) :
    datasourceCloneFlagMap w g v =
      [("storage-class", .str v.dsStorageClass),
       ("vms", .int v.dsVMs),
       ("namespaces", .int v.dsNamespaces),
       ("namespace-prefix", .str v.dsNamespacePrefix),
       ("vm-name", .str v.dsVMName),
       ("datasource-name", .str v.dsDatasourceName),
       ("datasource-namespace", .str v.dsDatasourceNamespace),
       ("storage-size", .str v.dsStorageSize),
       ("vm-memory", .str v.dsVMMemory),
       ("vm-cpu-cores", .int v.dsVMCPUCores),
       ("concurrency", .int v.dsConcurrency),
       ("poll-interval", .int v.dsPollInterval),
       ("cleanup", .bool v.dsCleanup),
       ("cleanup-only", .bool v.dsCleanupOnly),
       ("log-level", g.logLevel),
       ("log-file", .str (logName w g "datasource-clone"))] := by
  unfold datasourceCloneFlagMap logName
  split <;> simp [mapSet]

theorem generateLogFileName_ne_empty (w : World) (pre : String) :
    generateLogFileName w pre ≠ "" := by
  intro h
  have hd := congrArg String.data h
  simp [generateLogFileName, String.data_append] at hd

theorem logName_ne_empty (w : World) (g : Globals) (pre : String) : logName w g pre ≠ "" := by
  unfold logName
  split
  · assumption
  · exact generateLogFileName_ne_empty w pre

/-- In a visit of entries with distinct keys that contains the entry `(k, v)`,
the entry splits the visit in two parts without the key `k`. -/
theorem split_at_key (visited : List (String × Value)) (k : String) (v : Value)
    (hnd : (visited.map Prod.fst).Nodup) (hmem : (k, v) ∈ visited) :
    ∃ before after, visited = before ++ (k, v) :: after ∧
      (∀ e ∈ before ++ after, e.1 ≠ k) := by
  obtain ⟨before, after, rfl⟩ := List.append_of_mem hmem
  refine ⟨before, after, rfl, ?_⟩
  intro e he hk
  rw [List.map_append, List.map_cons, List.nodup_append] at hnd
  obtain ⟨_, hnd2, hdisj⟩ := hnd
  rw [List.nodup_cons] at hnd2
  rcases List.mem_append.1 he with hb | ha
  · have h1 : e.1 ∈ before.map Prod.fst := List.mem_map_of_mem _ hb
    have h2 : e.1 ∈ (k :: after.map Prod.fst) := by simp [hk]
    exact hdisj h1 h2
  · have h1 : e.1 ∈ after.map Prod.fst := List.mem_map_of_mem _ ha
    exact hnd2.1 (hk ▸ h1)

theorem buildPythonArgs_without (k : String) (visited : List (String × Value))
    (hz : ∀ e ∈ visited, e.1 = k → tableGroup e.1 e.2 = []) :
    buildPythonArgs visited = buildPythonArgs (without k visited) := by
  induction visited with
  | nil => rfl
  | cons e rest ih =>
    have hrest : ∀ x ∈ rest, x.1 = k → tableGroup x.1 x.2 = [] :=
      fun x hx => hz x (List.mem_cons_of_mem _ hx)
    have ih2 := ih hrest
    unfold without at ih2 ⊢
    by_cases hk : e.1 = k
    · have hg := hz e (by simp) hk
      rw [buildPythonArgs_cons, hg, List.nil_append, ih2]
      simp [List.filter_cons, hk]
    · rw [buildPythonArgs_cons, ih2]
      simp [List.filter_cons, hk, buildPythonArgs_cons]

theorem runsOf_printBanner_append (title : String) (events : List Event) :
    runsOf (printBanner title ++ events) = runsOf events := by
  simp [runsOf, printBanner, List.filterMap_cons]

theorem runPythonScript_runs (w : World) (g : Globals) (scriptPath : String)
    (args : List String) (root : String) (hroot : getRepoRoot w = .ok root)
    (hstat : w.stat (Join [root, scriptPath]) ≠ .notExist) :
    runsOf (runPythonScript w g scriptPath args).events
      = [prepareCommand w g (Join [root, scriptPath]) args] := by
  simp only [runPythonScript, hroot, if_neg hstat]
  split <;> simp [runsOf]

theorem rangeOrder_args_without (w : World) (m : FlagMap) (k : String)
    (hz : ∀ e ∈ m, e.1 = k → tableGroup e.1 e.2 = []) :
    buildPythonArgs (w.rangeOrder m) = buildPythonArgs (without k (w.rangeOrder m)) :=
  buildPythonArgs_without k _ (fun e he => hz e ((w.rangeOrder_perm m).subset he))

theorem tableGroup_int_nonpos (f : String) (n : Int) (hn : n ≤ 0) :
    tableGroup f (.int n) = [] := by
  have : ¬ 0 < n := by omega
  simp [tableGroup, this]

theorem migration_int_without (w : World) (g : Globals) (v : MigrationFlags) (k : String)
    (n : Int)
    (hk : (k, n) ∈ [("namespaces", v.migNamespaces), ("vm-cpu-cores", v.migVMCPUCores),
      ("concurrency", v.migConcurrency), ("poll-interval", v.migPollInterval)])
    (hn : n ≤ 0) :
    migrationArgs w g v
      = buildPythonArgs (without k (w.rangeOrder (migrationFlagMap w g v))) := by
  unfold migrationArgs
  apply rangeOrder_args_without
  rw [migrationFlagMap_eq]
  simp only [List.mem_cons, List.mem_singleton, Prod.mk.injEq, List.not_mem_nil, or_false] at hk
  rcases hk with ⟨rfl, rfl⟩ | ⟨rfl, rfl⟩ | ⟨rfl, rfl⟩ | ⟨rfl, rfl⟩ <;>
    simp [tableGroup_int_nonpos _ _ hn]

theorem clone_int_without (w : World) (g : Globals) (v : DatasourceCloneFlags) (k : String)
    (n : Int)
    (hk : (k, n) ∈ [("vms", v.dsVMs), ("namespaces", v.dsNamespaces),
      ("vm-cpu-cores", v.dsVMCPUCores), ("concurrency", v.dsConcurrency),
      ("poll-interval", v.dsPollInterval)])
    (hn : n ≤ 0) :
    datasourceCloneArgs w g v
      = buildPythonArgs (without k (w.rangeOrder (datasourceCloneFlagMap w g v))) := by
  unfold datasourceCloneArgs
  apply rangeOrder_args_without
  rw [datasourceCloneFlagMap_eq]
  simp only [List.mem_cons, List.mem_singleton, Prod.mk.injEq, List.not_mem_nil, or_false] at hk
  rcases hk with ⟨rfl, rfl⟩ | ⟨rfl, rfl⟩ | ⟨rfl, rfl⟩ | ⟨rfl, rfl⟩ | ⟨rfl, rfl⟩ <;>
    simp [tableGroup_int_nonpos _ _ hn]

theorem migration_storageClass_without (w : World) (g : Globals) (v : MigrationFlags)
    (h : v.migStorageClass = "") :
    migrationArgs w g v
      = buildPythonArgs (without "storage-class" (w.rangeOrder (migrationFlagMap w g v))) := by
  unfold migrationArgs
  apply rangeOrder_args_without
  rw [migrationFlagMap_eq]
  simp [tableGroup, h]

theorem clone_storageClass_without (w : World) (g : Globals) (v : DatasourceCloneFlags)
    (h : v.dsStorageClass = "") :
    datasourceCloneArgs w g v
      = buildPythonArgs (without "storage-class"
          (w.rangeOrder (datasourceCloneFlagMap w g v))) := by
  unfold datasourceCloneArgs
  apply rangeOrder_args_without
  rw [datasourceCloneFlagMap_eq]
  simp [tableGroup, h]

theorem rangeOrder_split (w : World) (m : FlagMap) (k : String) (v : Value)
    (hnd : (m.map Prod.fst).Nodup) (hmem : (k, v) ∈ m) :
    ∃ before after, w.rangeOrder m = before ++ (k, v) :: after ∧
      (∀ e ∈ before ++ after, e.1 ≠ k) :=
  split_at_key (w.rangeOrder m) k v
    ((((w.rangeOrder_perm m).map Prod.fst).nodup_iff).2 hnd)
    ((w.rangeOrder_perm m).symm.subset hmem)

theorem migrationFlagMap_keys (w : World) (g : Globals) (v : MigrationFlags) :
    ((migrationFlagMap w g v).map Prod.fst).Nodup := by
  rw [migrationFlagMap_eq]
  simp only [List.map_cons, List.map_nil]
  decide

theorem datasourceCloneFlagMap_keys (w : World) (g : Globals) (v : DatasourceCloneFlags) :
    ((datasourceCloneFlagMap w g v).map Prod.fst).Nodup := by
  rw [datasourceCloneFlagMap_eq]
  simp only [List.map_cons, List.map_nil]
  decide

theorem logFile_group (name : String) (h : name ≠ "") (before after : List (String × Value)) :
    buildPythonArgs (before ++ ("log-file", .str name) :: after)
      = buildPythonArgs before ++ ["--log-file", name] ++ buildPythonArgs after := by
  rw [buildPythonArgs_append, buildPythonArgs_cons]
  have : "--" ++ "log-file" = "--log-file" := by decide
  simp [tableGroup, h, flagToken, this]

/-! ## The argument marshaller -/

/-- C1: on a one-entry map the marshaller emits the tokens of the emission
table (flag and value for a non-empty text, flag and decimal digits for a
positive integer, the flag alone for true, the flag before each item for a
non-empty list), and on any sequence of visited entries the result is the
concatenation, in the order of the visit, of the groups of the entries. -/
theorem buildPythonArgs_emits_table :
    (∀ (f s : String), s ≠ "" → buildPythonArgs [(f, .str s)] = ["--" ++ f, s]) ∧
    (∀ (f : String) (n : Int), 0 < n →
      buildPythonArgs [(f, .int n)] = ["--" ++ f, Nat.repr n.toNat]) ∧
    (∀ f : String, buildPythonArgs [(f, .bool true)] = ["--" ++ f]) ∧
    (∀ (f : String) (xs : List String), xs ≠ [] →
      buildPythonArgs [(f, .strs xs)] = xs.flatMap (fun x => ["--" ++ f, x])) ∧
    (∀ m : List (String × Value),
      buildPythonArgs m = (m.map (fun e => buildPythonArgs [e])).flatten) := by
  refine ⟨?_, ?_, ?_, ?_, ?_⟩
  · intro f s hs
    simp [buildPythonArgs_single, tableGroup, hs, flagToken]
  · intro f n hn
    have h1 : ¬ n < 0 := by omega
    have h2 : n.natAbs = n.toNat := by omega
    simp [buildPythonArgs_single, tableGroup, hn, flagToken, sprintfD, h1, h2]
  · intro f
    simp [buildPythonArgs_single, tableGroup, flagToken]
  · intro f xs _
    simp [buildPythonArgs_single, tableGroup, flagToken]
  · intro m
    have : (fun e : String × Value => buildPythonArgs [e]) = fun e => tableGroup e.1 e.2 := by
      funext e
      exact buildPythonArgs_single e.1 e.2
    rw [this]
    exact buildPythonArgs_eq_groups m

/-- C1 at concrete entries: a text, a positive integer, true, a two-item list,
and a map of three entries. -/
theorem buildPythonArgs_emits_table_witness :
    buildPythonArgs [("vm-name", .str "test-vm")] = ["--vm-name", "test-vm"] ∧
    buildPythonArgs [("vms", .int 50)] = ["--vms", "50"] ∧
    buildPythonArgs [("cleanup", .bool true)] = ["--cleanup"] ∧
    buildPythonArgs [("node", .strs ["a", "b"])] = ["--node", "a", "--node", "b"] ∧
    buildPythonArgs [("vms", .int 50), ("cleanup", .bool true), ("node", .strs ["a", "b"])]
      = ["--vms", "50", "--cleanup", "--node", "a", "--node", "b"] :=
  ⟨buildPythonArgs_emits_table.1 "vm-name" "test-vm" (by decide),
   buildPythonArgs_emits_table.2.1 "vms" 50 (by decide),
   buildPythonArgs_emits_table.2.2.1 "cleanup",
   buildPythonArgs_emits_table.2.2.2.1 "node" ["a", "b"] (by decide),
   buildPythonArgs_emits_table.2.2.2.2 _⟩

/-- C2: an entry whose value is nil, the empty text, an integer at most zero,
false, or an empty list contributes no token: the vector is the one obtained
from the same visit with the entry removed. -/
theorem buildPythonArgs_skips_zero (before after : List (String × Value)) (f : String)
    (v : Value)
    (hz : v = .nil ∨ v = .str "" ∨ (∃ n : Int, n ≤ 0 ∧ v = .int n) ∨ v = .bool false ∨
      v = .strs []) :
    buildPythonArgs (before ++ (f, v) :: after) = buildPythonArgs (before ++ after) := by
  have hg : tableGroup f v = [] := by
    rcases hz with h | h | ⟨n, hn, h⟩ | h | h <;> subst h <;> simp [tableGroup]
    omega
  rw [buildPythonArgs_append, buildPythonArgs_cons, buildPythonArgs_append]
  simp [hg]

/-- C2 at a concrete map: a negative integer between two emitted entries. -/
theorem buildPythonArgs_skips_zero_witness :
    buildPythonArgs ([("vm-name", .str "test-vm")] ++ ("vms", .int (-3)) ::
        [("cleanup", .bool true)])
      = buildPythonArgs ([("vm-name", .str "test-vm")] ++ [("cleanup", .bool true)]) :=
  buildPythonArgs_skips_zero _ _ "vms" (.int (-3)) (Or.inr (Or.inr (Or.inl ⟨-3, by decide, rfl⟩)))

/-- C3: for two orders of visit of the same entries, both vectors are the
concatenation of the per-entry groups, the two lists of groups are
permutations of each other (no group dropped or duplicated), the group of every
entry is a contiguous block of both vectors, and the group of a list entry is
the flag before each item in the order of the list. -/
theorem buildPythonArgs_order_independent (m₁ m₂ : List (String × Value))
    (hperm : m₁.Perm m₂) :
    buildPythonArgs m₁ = (m₁.map (fun e => buildPythonArgs [e])).flatten ∧
    buildPythonArgs m₂ = (m₂.map (fun e => buildPythonArgs [e])).flatten ∧
    (m₁.map (fun e => buildPythonArgs [e])).Perm (m₂.map (fun e => buildPythonArgs [e])) ∧
    (∀ e ∈ m₁, buildPythonArgs [e] <:+: buildPythonArgs m₁ ∧
      buildPythonArgs [e] <:+: buildPythonArgs m₂) ∧
    (∀ (f : String) (xs : List String),
      buildPythonArgs [(f, .strs xs)] = xs.flatMap (fun x => ["--" ++ f, x])) ∧
    (buildPythonArgs m₁).Perm (buildPythonArgs m₂) := by
  have hfun : (fun e : String × Value => buildPythonArgs [e]) = fun e => tableGroup e.1 e.2 := by
    funext e
    exact buildPythonArgs_single e.1 e.2
  have hin : ∀ (m : List (String × Value)) (e : String × Value), e ∈ m →
      buildPythonArgs [e] <:+: buildPythonArgs m := by
    intro m e he
    obtain ⟨s, t, rfl⟩ := List.append_of_mem he
    refine ⟨buildPythonArgs s, buildPythonArgs t, ?_⟩
    rw [buildPythonArgs_append s (e :: t)]
    have : e :: t = [e] ++ t := rfl
    rw [this, buildPythonArgs_append [e] t, List.append_assoc]
  refine ⟨?_, ?_, hperm.map _, ?_, ?_, ?_⟩
  · rw [hfun]; exact buildPythonArgs_eq_groups m₁
  · rw [hfun]; exact buildPythonArgs_eq_groups m₂
  · intro e he
    exact ⟨hin m₁ e he, hin m₂ e (hperm.subset he)⟩
  · intro f xs
    simp [buildPythonArgs_single, tableGroup, flagToken]
  · rw [buildPythonArgs_eq_groups, buildPythonArgs_eq_groups]
    exact (hperm.map _).flatten

/-- C3 at a concrete map visited in two orders. -/
theorem buildPythonArgs_order_independent_witness :
    (buildPythonArgs [("vms", .int 50), ("node", .strs ["a", "b"])]).Perm
      (buildPythonArgs [("node", .strs ["a", "b"]), ("vms", .int 50)]) :=
  (buildPythonArgs_order_independent [("vms", .int 50), ("node", .strs ["a", "b"])]
    [("node", .strs ["a", "b"]), ("vms", .int 50)] (List.Perm.swap _ _ _)).2.2.2.2.2

/-! ## The log name -/

/-- C4: for every prefix and every instant with a year from 0 to 9999, the log
name is the prefix, a hyphen, the four-digit year, the two-digit month and day,
a hyphen, the two-digit hour, minute and second, and `.log`; its length is the
length of the prefix plus 20; the 15 characters after the hyphen that follows
the prefix match `[0-9]{8}-[0-9]{6}`; and at 2006-01-02 15:04:05 the name for
`migration` is `migration-20060102-150405.log`. -/
theorem generateLogFileName_format (w : World) (p : String)
    (hy : 0 ≤ w.now.year ∧ w.now.year ≤ 9999)
    (hmo : 1 ≤ w.now.month ∧ w.now.month ≤ 12) (hd : 1 ≤ w.now.day ∧ w.now.day ≤ 31)
    (hh : w.now.hour ≤ 23) (hmi : w.now.minute ≤ 59) (hs : w.now.second ≤ 59) :
    generateLogFileName w p
      = p ++ "-" ++ String.mk (zeroPadded 4 w.now.year.toNat ++ zeroPadded 2 w.now.month ++
          zeroPadded 2 w.now.day) ++ "-" ++ String.mk (zeroPadded 2 w.now.hour ++
          zeroPadded 2 w.now.minute ++ zeroPadded 2 w.now.second) ++ ".log" ∧
    (generateLogFileName w p).length = p.length + 20 ∧
    (generateLogFileName w p).utf8ByteSize = p.utf8ByteSize + 20 ∧
    matchesStampPattern (((generateLogFileName w p).data.drop (p.length + 1)).take 15) = true ∧
    (w.now = ⟨2006, 1, 2, 15, 4, 5⟩ →
      generateLogFileName w "migration" = "migration-20060102-150405.log") := by
  have hdata := formatStamp_eq w.now hy.1 hy.2 (by omega) (by omega) (by omega) (by omega)
    (by omega)
  have hgen : (generateLogFileName w p).data = p.data ++ '-' ::
      (zeroPadded 4 w.now.year.toNat ++ zeroPadded 2 w.now.month ++ zeroPadded 2 w.now.day
        ++ '-' :: (zeroPadded 2 w.now.hour ++ zeroPadded 2 w.now.minute ++
          zeroPadded 2 w.now.second)) ++ ".log".data := by
    simp [generateLogFileName, String.data_append, hdata]
  have hlog : ".log".data = ['.', 'l', 'o', 'g'] := rfl
  refine ⟨?_, ?_, ?_, ?_, ?_⟩
  · apply String.ext
    rw [hgen]
    simp [String.data_append]
  · rw [String.length, hgen, hlog, String.length]
    simp only [zeroPadded_two, zeroPadded_four, List.length_append, List.length_cons,
      List.length_nil]
  · have hb : ∀ s : String, s.utf8ByteSize = String.utf8Len s.data := fun s =>
      String.utf8ByteSize_mk s.data
    have c1 : Char.utf8Size '-' = 1 := rfl
    have c2 : Char.utf8Size '.' = 1 := rfl
    have c3 : Char.utf8Size 'l' = 1 := rfl
    have c4 : Char.utf8Size 'o' = 1 := rfl
    have c5 : Char.utf8Size 'g' = 1 := rfl
    rw [hb, hb, hgen, hlog]
    simp only [String.utf8Len_append, String.utf8Len_cons, String.utf8Len_nil,
      utf8Len_zeroPadded, c1, c2, c3, c4, c5]
  · rw [hgen]
    have hdrop : ∀ (a b : List Char), (a ++ '-' :: b).drop (a.length + 1) = b := by
      intro a b
      have : a ++ '-' :: b = (a ++ ['-']) ++ b := by simp
      rw [this, ← List.length_singleton '-', ← List.length_append, List.drop_left]
    rw [String.length, List.append_assoc, List.cons_append, hdrop]
    have d1 := isDigit_ofNat
    simp [zeroPadded_two, zeroPadded_four, matchesStampPattern, d1, Nat.mod_lt]
  · intro hnow
    unfold generateLogFileName
    rw [hnow]
    decide

/-- C4 at the instant 2006-01-02 15:04:05 with the prefix `migration`. -/
theorem generateLogFileName_format_witness :
    generateLogFileName sampleWorld "migration" = "migration-20060102-150405.log" ∧
    (generateLogFileName sampleWorld "migration").length = "migration".length + 20 :=
  have h := generateLogFileName_format sampleWorld "migration" (by decide) (by decide)
    (by decide) (by decide) (by decide) (by decide)
  ⟨h.2.2.2.2 rfl, h.2.1⟩

/-! ## The root of the repository -/

/-- C5: for an absolute symlink-resolved path of the binary, its directory is
an absolute path `/e1/.../en` of proper components, and for these components:
when the text of the directory ends with `cmd/virtbench` the root is the path
without its last two components; otherwise, when the text ends with `bin`, the
root is the path without its last component; otherwise the root is the
directory itself. -/
theorem getRepoRoot_suffix_rule (w : World) (p₀ p : String)
    (hexe : w.executable = .ok p₀) (hsym : w.evalSymlinks p₀ = .ok p)
    (habs : IsAbs p = true) :
    (∃ es : List String, (∀ e ∈ es, ProperElem e) ∧ Dir p = absPath es) ∧
    (∀ es : List String, (∀ e ∈ es, ProperElem e) → Dir p = absPath es →
      (HasSuffix (Dir p) "cmd/virtbench" = true →
        getRepoRoot w = .ok (absPath es.dropLast.dropLast)) ∧
      (HasSuffix (Dir p) "cmd/virtbench" = false → HasSuffix (Dir p) "bin" = true →
        getRepoRoot w = .ok (absPath es.dropLast)) ∧
      (HasSuffix (Dir p) "cmd/virtbench" = false → HasSuffix (Dir p) "bin" = false →
        getRepoRoot w = .ok (Dir p))) := by
  refine ⟨Dir_abs_form p habs, ?_⟩
  intro es hes hdir
  have h := getRepoRoot_of_binDir w p₀ p es hexe hsym hdir hes
  rw [hdir]
  refine ⟨?_, ?_, ?_⟩
  · intro h1
    simpa [h1] using h
  · intro h1 h2
    simpa [h1, h2] using h
  · intro h1 h2
    simpa [h1, h2] using h

/-- C5 at the three layouts: `/repo/cmd/virtbench`, `/repo/bin` and `/repo`
all resolve to `/repo`. -/
theorem getRepoRoot_suffix_rule_witness :
    getRepoRoot (worldAt "/repo/cmd/virtbench/virtbench") = .ok "/repo" ∧
    getRepoRoot (worldAt "/repo/bin/virtbench") = .ok "/repo" ∧
    getRepoRoot (worldAt "/repo/virtbench") = .ok "/repo" :=
  ⟨((getRepoRoot_suffix_rule (worldAt "/repo/cmd/virtbench/virtbench")
      "/repo/cmd/virtbench/virtbench" "/repo/cmd/virtbench/virtbench" rfl rfl (by decide)).2
      ["repo", "cmd", "virtbench"] (by decide) (by decide)).1 (by decide),
   ((getRepoRoot_suffix_rule (worldAt "/repo/bin/virtbench")
      "/repo/bin/virtbench" "/repo/bin/virtbench" rfl rfl (by decide)).2
      ["repo", "bin"] (by decide) (by decide)).2.1 (by decide) (by decide),
   ((getRepoRoot_suffix_rule (worldAt "/repo/virtbench")
      "/repo/virtbench" "/repo/virtbench" rfl rfl (by decide)).2
      ["repo"] (by decide) (by decide)).2.2 (by decide) (by decide)⟩

/-- C9: the `bin` rule and the `cmd/virtbench` rule test the text of the
directory, not its last component.  For a directory `/e1/.../en`: when its text
ends with `bin` and not with `cmd/virtbench`, the root is its parent, which
differs from the directory; when its text ends with `cmd/virtbench`, the root
is two levels up.  A last component `<x>bin` for any text `x` (such as `sbin`
or `cabin`) passes the `bin` test and fails the `cmd/virtbench` test, so the
directory resolves to its parent; the last components `<x>cmd`, `virtbench`
for any text `x` pass the `cmd/virtbench` test, so the directory resolves two
levels up. -/
theorem getRepoRoot_suffix_is_textual (w : World) (p₀ p : String) (es : List String)
    (hexe : w.executable = .ok p₀) (hsym : w.evalSymlinks p₀ = .ok p)
    (hdir : Dir p = absPath es) (hes : ∀ e ∈ es, ProperElem e) :
    (HasSuffix (Dir p) "cmd/virtbench" = false → HasSuffix (Dir p) "bin" = true →
      getRepoRoot w = .ok (absPath es.dropLast) ∧ absPath es.dropLast ≠ Dir p) ∧
    (HasSuffix (Dir p) "cmd/virtbench" = true →
      getRepoRoot w = .ok (absPath es.dropLast.dropLast)) ∧
    (∀ (init : List String) (x : String), es = init ++ [x ++ "bin"] →
      HasSuffix (Dir p) "bin" = true ∧ HasSuffix (Dir p) "cmd/virtbench" = false ∧
      getRepoRoot w = .ok (absPath init) ∧ absPath init ≠ Dir p) ∧
    (∀ (init : List String) (x : String), es = init ++ [x ++ "cmd", "virtbench"] →
      HasSuffix (Dir p) "cmd/virtbench" = true ∧ getRepoRoot w = .ok (absPath init)) := by
  have h := getRepoRoot_of_binDir w p₀ p es hexe hsym hdir hes
  rw [hdir]
  refine ⟨?_, ?_, ?_, ?_⟩
  · intro h1 h2
    refine ⟨by simpa [h1, h2] using h, ?_⟩
    rcases List.eq_nil_or_concat es with hnil | ⟨init, last, hcat⟩
    · rw [hnil] at h2
      exact absurd h2 (by decide)
    · rw [List.concat_eq_append] at hcat
      have hlast : last.data ≠ [] := (hes last (by simp [hcat])).1
      rw [hcat, List.dropLast_concat]
      exact absPath_concat_ne init last hlast
  · intro h1
    simpa [h1] using h
  · intro init x hcat
    subst hcat
    rw [not_hasSuffix_cmd_of_bin, hasSuffix_bin] at h
    refine ⟨hasSuffix_bin init x, not_hasSuffix_cmd_of_bin init x, ?_, ?_⟩
    · simpa using h
    · apply absPath_concat_ne
      rw [String.data_append]
      simp
  · intro init x hcat
    subst hcat
    rw [hasSuffix_cmd_virtbench] at h
    refine ⟨hasSuffix_cmd_virtbench init x, ?_⟩
    have hl : (init ++ [x ++ "cmd", "virtbench"]).dropLast.dropLast = init := by
      have : init ++ [x ++ "cmd", "virtbench"] = (init ++ [x ++ "cmd"]) ++ ["virtbench"] := by
        simp
      rw [this, List.dropLast_concat, List.dropLast_concat]
    simpa [hl] using h

/-- C9 at `/usr/sbin`, `/opt/cabin` and `/x/mycmd/virtbench`. -/
theorem getRepoRoot_suffix_is_textual_witness :
    getRepoRoot (worldAt "/usr/sbin/virtbench") = .ok "/usr" ∧
    getRepoRoot (worldAt "/opt/cabin/virtbench") = .ok "/opt" ∧
    getRepoRoot (worldAt "/x/mycmd/virtbench/virtbench") = .ok "/x" :=
  ⟨((getRepoRoot_suffix_is_textual (worldAt "/usr/sbin/virtbench") "/usr/sbin/virtbench"
      "/usr/sbin/virtbench" ["usr", "sbin"] rfl rfl (by decide) (by decide)).2.2.1
      ["usr"] "s" (by decide)).2.2.1,
   ((getRepoRoot_suffix_is_textual (worldAt "/opt/cabin/virtbench") "/opt/cabin/virtbench"
      "/opt/cabin/virtbench" ["opt", "cabin"] rfl rfl (by decide) (by decide)).2.2.1
      ["opt"] "ca" (by decide)).2.2.1,
   ((getRepoRoot_suffix_is_textual (worldAt "/x/mycmd/virtbench/virtbench")
      "/x/mycmd/virtbench/virtbench" "/x/mycmd/virtbench/virtbench"
      ["x", "mycmd", "virtbench"] rfl rfl (by decide) (by decide)).2.2.2
      ["x"] "my" (by decide)).2⟩

/-! ## The dispatcher -/

/-- C7: with the root resolved and the script present, `runPythonScript`
returns nil exactly when the command ran and exited with status 0; for a
non-zero exit status `c` it returns `script execution failed: ` wrapping the
exit error, from which `c` is recovered; for a failure to start it returns
`script execution failed: ` wrapping the cause unchanged; and in every case the
command is run exactly once. -/
theorem runPythonScript_outcome (w : World) (g : Globals) (scriptPath : String)
    (args : List String) (root : String) (hroot : getRepoRoot w = .ok root)
    (hstat : w.stat (Join [root, scriptPath]) ≠ .notExist) :
    ((runPythonScript w g scriptPath args).err = none ↔
      w.run (prepareCommand w g (Join [root, scriptPath]) args) = .exited 0) ∧
    (∀ c : Nat, c ≠ 0 →
      w.run (prepareCommand w g (Join [root, scriptPath]) args) = .exited c →
      (runPythonScript w g scriptPath args).err
          = some (.wrap "script execution failed: " (.exit c)) ∧
        (runPythonScript w g scriptPath args).err.map GoError.Error
          = some ("script execution failed: " ++ "exit status " ++ Nat.repr c) ∧
        ((runPythonScript w g scriptPath args).err.bind GoError.Unwrap) = some (.exit c) ∧
        ((runPythonScript w g scriptPath args).err.bind GoError.exitCode) = some c) ∧
    (∀ cause : GoError,
      w.run (prepareCommand w g (Join [root, scriptPath]) args) = .startFailed cause →
      (runPythonScript w g scriptPath args).err
          = some (.wrap "script execution failed: " cause) ∧
        (runPythonScript w g scriptPath args).err.map GoError.Error
          = some ("script execution failed: " ++ cause.Error) ∧
        ((runPythonScript w g scriptPath args).err.bind GoError.Unwrap) = some cause) ∧
    runsOf (runPythonScript w g scriptPath args).events
      = [prepareCommand w g (Join [root, scriptPath]) args] := by
  have hrun : runPythonScript w g scriptPath args
      = match cmdRun (w.run (prepareCommand w g (Join [root, scriptPath]) args)) with
        | some err => ⟨some (.wrap "script execution failed: " err),
            [Event.print ("Running: python3 " ++
              stringsJoin (prepareCommand w g (Join [root, scriptPath]) args).args " " ++ "\n"),
             Event.print (rule80 ++ "\n"),
             .run (prepareCommand w g (Join [root, scriptPath]) args)]⟩
        | none => ⟨none,
            [Event.print ("Running: python3 " ++
              stringsJoin (prepareCommand w g (Join [root, scriptPath]) args).args " " ++ "\n"),
             Event.print (rule80 ++ "\n"),
             .run (prepareCommand w g (Join [root, scriptPath]) args)]⟩ := by
    simp only [runPythonScript, hroot, if_neg hstat]
    split <;> simp
  rw [hrun]
  cases hout : w.run (prepareCommand w g (Join [root, scriptPath]) args) with
  | startFailed cause => simp [cmdRun, runsOf, GoError.Unwrap, GoError.Error]
  | exited code =>
    cases code with
    | zero =>
      simp [cmdRun, runsOf]
      intro c hc h
      exact hc h.symm
    | succ k =>
      simp [cmdRun, runsOf, GoError.Unwrap, GoError.exitCode, GoError.Error, String.append_assoc]
      intro c _ hc
      subst hc
      refine ⟨rfl, ?_, rfl⟩
      rw [← String.append_assoc]
      rfl

/-- C7 at exit status 7 and at exit status 0. -/
theorem runPythonScript_outcome_witness :
    (runPythonScript (worldRunning (.exited 7)) sampleGlobals
        "migration/measure-vm-migration-time.py" []).err.bind GoError.exitCode = some 7 ∧
    (runPythonScript (worldRunning (.exited 0)) sampleGlobals
        "migration/measure-vm-migration-time.py" []).err = none :=
  ⟨((runPythonScript_outcome (worldRunning (.exited 7)) sampleGlobals
      "migration/measure-vm-migration-time.py" [] "/repo" rfl (by decide)).2.1 7
      (by decide) rfl).2.2.2,
   (runPythonScript_outcome (worldRunning (.exited 0)) sampleGlobals
      "migration/measure-vm-migration-time.py" [] "/repo" rfl (by decide)).1.2 rfl⟩

/-! ## The workload commands -/

/-- C8: for `runMigration` and `runDatasourceClone`, the map has a `log-file`
entry and exactly one value for it: the override `logFile` when it is not empty,
the generated name with the name of the workload as prefix otherwise; the run
function hands the marshalled vector to the dispatcher, and that vector is the
marshalling of the entries visited before the `log-file` entry, the pair
`--log-file`, name, and the marshalling of the entries visited after it, where
no other visited entry has the flag `log-file`. -/
theorem logFile_override_precedence (w : World) (g : Globals) (vm : MigrationFlags)
    (vd : DatasourceCloneFlags) :
    (g.logFile ≠ "" → logName w g "migration" = g.logFile ∧
      logName w g "datasource-clone" = g.logFile) ∧
    (g.logFile = "" → logName w g "migration" = generateLogFileName w "migration" ∧
      logName w g "datasource-clone" = generateLogFileName w "datasource-clone") ∧
    (∀ v, ("log-file", v) ∈ migrationFlagMap w g vm ↔ v = .str (logName w g "migration")) ∧
    (∀ v, ("log-file", v) ∈ datasourceCloneFlagMap w g vd ↔
      v = .str (logName w g "datasource-clone")) ∧
    runMigration w g vm
      = ⟨(runPythonScript w g "migration/measure-vm-migration-time.py"
            (migrationArgs w g vm)).err,
          printBanner "VM Migration Benchmark" ++
            (runPythonScript w g "migration/measure-vm-migration-time.py"
              (migrationArgs w g vm)).events⟩ ∧
    runDatasourceClone w g vd
      = ⟨(runPythonScript w g "datasource-clone/measure-vm-creation-time.py"
            (datasourceCloneArgs w g vd)).err,
          printBanner "DataSource Clone Benchmark" ++
            (runPythonScript w g "datasource-clone/measure-vm-creation-time.py"
              (datasourceCloneArgs w g vd)).events⟩ ∧
    (∃ before after,
      w.rangeOrder (migrationFlagMap w g vm)
        = before ++ ("log-file", .str (logName w g "migration")) :: after ∧
      (∀ e ∈ before ++ after, e.1 ≠ "log-file") ∧
      migrationArgs w g vm
        = buildPythonArgs before ++ ["--log-file", logName w g "migration"] ++
            buildPythonArgs after) ∧
    (∃ before after,
      w.rangeOrder (datasourceCloneFlagMap w g vd)
        = before ++ ("log-file", .str (logName w g "datasource-clone")) :: after ∧
      (∀ e ∈ before ++ after, e.1 ≠ "log-file") ∧
      datasourceCloneArgs w g vd
        = buildPythonArgs before ++ ["--log-file", logName w g "datasource-clone"] ++
            buildPythonArgs after) := by
  refine ⟨?_, ?_, ?_, ?_, rfl, rfl, ?_, ?_⟩
  · intro h
    simp [logName, h]
  · intro h
    simp [logName, h]
  · intro v
    rw [migrationFlagMap_eq]
    simp
  · intro v
    rw [datasourceCloneFlagMap_eq]
    simp
  · have hmem : ("log-file", Value.str (logName w g "migration")) ∈ migrationFlagMap w g vm := by
      rw [migrationFlagMap_eq]
      simp
    obtain ⟨before, after, hsplit, hkeys⟩ :=
      rangeOrder_split w _ _ _ (migrationFlagMap_keys w g vm) hmem
    refine ⟨before, after, hsplit, hkeys, ?_⟩
    rw [migrationArgs, hsplit]
    exact logFile_group _ (logName_ne_empty w g _) before after
  · have hmem : ("log-file", Value.str (logName w g "datasource-clone"))
        ∈ datasourceCloneFlagMap w g vd := by
      rw [datasourceCloneFlagMap_eq]
      simp
    obtain ⟨before, after, hsplit, hkeys⟩ :=
      rangeOrder_split w _ _ _ (datasourceCloneFlagMap_keys w g vd) hmem
    refine ⟨before, after, hsplit, hkeys, ?_⟩
    rw [datasourceCloneArgs, hsplit]
    exact logFile_group _ (logName_ne_empty w g _) before after

/-- C8 at a run without override: the generated name is used. -/
theorem logFile_override_precedence_witness :
    logName sampleWorld sampleGlobals "migration" = "migration-20060102-150405.log" ∧
    (("log-file", Value.str "migration-20060102-150405.log")
      ∈ migrationFlagMap sampleWorld sampleGlobals (sampleMigration "fada-raw-sc" 5)) :=
  have h := logFile_override_precedence sampleWorld sampleGlobals
    (sampleMigration "fada-raw-sc" 5) (sampleClone "fada-raw-sc" 50)
  have hname : logName sampleWorld sampleGlobals "migration"
      = "migration-20060102-150405.log" := (h.2.1 rfl).1.trans (by decide)
  ⟨hname, (h.2.2.1 _).2 (congrArg Value.str hname.symm)⟩

/-- C10: the run functions validate nothing themselves: they always hand the
marshalled vector to the dispatcher, which runs the command with it when the
root resolves and the script exists; with the storage class equal to the empty
text the vector is the marshalling of the visited entries without the
`storage-class` entry, and with an integer option at most zero the vector is
the marshalling of the visited entries without the entry of that option. -/
theorem zero_valued_options_not_forwarded (w : World) (g : Globals) (vm : MigrationFlags)
    (vd : DatasourceCloneFlags) :
    (runMigration w g vm
      = ⟨(runPythonScript w g "migration/measure-vm-migration-time.py"
            (migrationArgs w g vm)).err,
          printBanner "VM Migration Benchmark" ++
            (runPythonScript w g "migration/measure-vm-migration-time.py"
              (migrationArgs w g vm)).events⟩ ∧
    runDatasourceClone w g vd
      = ⟨(runPythonScript w g "datasource-clone/measure-vm-creation-time.py"
            (datasourceCloneArgs w g vd)).err,
          printBanner "DataSource Clone Benchmark" ++
            (runPythonScript w g "datasource-clone/measure-vm-creation-time.py"
              (datasourceCloneArgs w g vd)).events⟩) ∧
    (∀ root, getRepoRoot w = .ok root →
      (w.stat (Join [root, "migration/measure-vm-migration-time.py"]) ≠ .notExist →
        runsOf (runMigration w g vm).events
          = [prepareCommand w g (Join [root, "migration/measure-vm-migration-time.py"])
              (migrationArgs w g vm)]) ∧
      (w.stat (Join [root, "datasource-clone/measure-vm-creation-time.py"]) ≠ .notExist →
        runsOf (runDatasourceClone w g vd).events
          = [prepareCommand w g (Join [root, "datasource-clone/measure-vm-creation-time.py"])
              (datasourceCloneArgs w g vd)])) ∧
    (vm.migStorageClass = "" →
      migrationArgs w g vm
        = buildPythonArgs (without "storage-class" (w.rangeOrder (migrationFlagMap w g vm)))) ∧
    (vd.dsStorageClass = "" →
      datasourceCloneArgs w g vd
        = buildPythonArgs (without "storage-class"
            (w.rangeOrder (datasourceCloneFlagMap w g vd)))) ∧
    (∀ (k : String) (n : Int),
      (k, n) ∈ [("namespaces", vm.migNamespaces), ("vm-cpu-cores", vm.migVMCPUCores),
        ("concurrency", vm.migConcurrency), ("poll-interval", vm.migPollInterval)] →
      n ≤ 0 →
      migrationArgs w g vm
        = buildPythonArgs (without k (w.rangeOrder (migrationFlagMap w g vm)))) ∧
    (∀ (k : String) (n : Int),
      (k, n) ∈ [("vms", vd.dsVMs), ("namespaces", vd.dsNamespaces),
        ("vm-cpu-cores", vd.dsVMCPUCores), ("concurrency", vd.dsConcurrency),
        ("poll-interval", vd.dsPollInterval)] →
      n ≤ 0 →
      datasourceCloneArgs w g vd
        = buildPythonArgs (without k (w.rangeOrder (datasourceCloneFlagMap w g vd)))) := by
  refine ⟨⟨rfl, rfl⟩, ?_, migration_storageClass_without w g vm,
    clone_storageClass_without w g vd, ?_, ?_⟩
  · intro root hroot
    constructor
    · intro hstat
      simp only [runMigration]
      rw [runsOf_printBanner_append]
      exact runPythonScript_runs w g _ _ root hroot hstat
    · intro hstat
      simp only [runDatasourceClone]
      rw [runsOf_printBanner_append]
      exact runPythonScript_runs w g _ _ root hroot hstat
  · intro k n hk hn
    exact migration_int_without w g vm k n hk hn
  · intro k n hk hn
    exact clone_int_without w g vd k n hk hn

/-- C10 at a migration run with an empty storage class and a poll interval of
zero, and a clone run with an empty storage class and minus one VMs: the
command is run and neither option appears in its arguments. -/
theorem zero_valued_options_not_forwarded_witness :
    runsOf (runMigration sampleWorld sampleGlobals (sampleMigration "" 0)).events
      = [prepareCommand sampleWorld sampleGlobals "/repo/migration/measure-vm-migration-time.py"
          ["--namespaces", "10", "--namespace-prefix", "migration-test", "--vm-name", "test-vm",
           "--datasource-name", "rhel9", "--datasource-namespace",
           "openshift-virtualization-os-images", "--storage-size", "30Gi", "--vm-memory",
           "2048M", "--vm-cpu-cores", "1", "--concurrency", "10", "--log-level", "INFO",
           "--log-file", "migration-20060102-150405.log"]] ∧
    datasourceCloneArgs sampleWorld sampleGlobals (sampleClone "" (-1))
      = buildPythonArgs (without "vms" (sampleWorld.rangeOrder
          (datasourceCloneFlagMap sampleWorld sampleGlobals (sampleClone "" (-1))))) :=
  have h := zero_valued_options_not_forwarded sampleWorld sampleGlobals (sampleMigration "" 0)
    (sampleClone "" (-1))
  ⟨((h.2.1 "/repo" rfl).1 (by decide)).trans (by decide),
   h.2.2.2.2.2 "vms" (-1) (by decide) (by decide)⟩

end Virtbench
